import Mathlib

/-!
Verification development for the clash-royale-bot reconciliation core.

The definitions below are a shallow embedding of the war-job period tracker
(`src/jobs/war.ts`: `inferWarDayIndex`, `currentPeriodKey`,
`isRegularWarBattleDay`, `maybePostSnapshotOnPeriodChange`,
`postWarDaySnapshotFromCaptured`, `appendSnapshotHistory`) and of the role
sync engine (`src/jobs/roleSync.ts`: `syncRolesOnce`, `applyMemberRoles`).

Modelling conventions: JavaScript `undefined` is `Option.none`; numeric
payload fields are integers after the `toFiniteInt` coercion (upstream
counters are integral deck/fame counts); JSON round-trips through the
checkpoint store are represented by structured values, which is faithful for
every value the jobs themselves write; Discord channel availability and the
message renderer are external and assumed available.
-/

namespace CRBot

/-- Per-participant counters taken from one upstream snapshot; mirrors the
fields of `ParticipantSnapshot` in the war job. `none` models an absent
(`undefined`) field. -/
structure Participant where
  decksUsed : Option Int
  decksUsedToday : Option Int
  fame : Option Int
  pname : Option String
deriving DecidableEq

/-- The payload fields the war job reads from the current river-race
response, after the `toFiniteInt` numeric coercion. -/
structure Payload where
  periodType : Option String
  state : Option String
  sectionIndex : Option Int
  dayIndex : Option Int
  warDay : Option Int
deriving DecidableEq

/-- JavaScript `trim()`: strip whitespace from both ends of the string. -/
def jsTrim (s : String) : String :=
  ⟨((s.data.dropWhile Char.isWhitespace).reverse.dropWhile Char.isWhitespace).reverse⟩

/-- JavaScript `toLowerCase()` on the character list. -/
def jsToLower (s : String) : String := ⟨s.data.map Char.toLower⟩

/-- JavaScript `toUpperCase()` on the character list. -/
def jsToUpper (s : String) : String := ⟨s.data.map Char.toUpper⟩

/-- The `trim().toLowerCase()` normalization applied to `periodType` and
`state` strings throughout the war job. -/
def normPT (s : String) : String := jsToLower (jsTrim s)

/-- Whether the first character list is a prefix of the second. -/
def charsStart : List Char → List Char → Bool
  | [], _ => true
  | _ :: _, [] => false
  | a :: as, b :: bs => a == b && charsStart as bs

/-- Whether the first character list occurs inside the second. -/
def charsInside (needle : List Char) : List Char → Bool
  | [] => charsStart needle []
  | c :: cs => charsStart needle (c :: cs) || charsInside needle cs

/-- JavaScript `String.prototype.includes`. -/
def strIncludes (s sub : String) : Bool := charsInside sub.data s.data

/-- JavaScript `String.prototype.startsWith`. -/
def jsStartsWith (s pre : String) : Bool := charsStart pre.data s.data

/-- JavaScript `String.prototype.endsWith`. -/
def jsEndsWith (s suf : String) : Bool := charsStart suf.data.reverse s.data.reverse

/-- `clampWarDayIndex` from the war job: indices outside `1..5` are dropped. -/
def clampWarDayIndex (n : Option Int) : Option Int :=
  match n with
  | none => none
  | some i => if i < 1 ∨ 5 < i then none else some i

/-- Maximum cumulative deck counter across participants, as accumulated by
the colosseum branch of `inferWarDayIndex`. The JS loop starts at `0` and
only ever raises the accumulator, so absent or negative counters never
contribute; `Int.toNat` realizes exactly that clipping. -/
def maxDecksUsed (parts : List Participant) : Nat :=
  parts.foldl (fun m s => max m (s.decksUsed.getD 0).toNat) 0

/-- Maximum per-day (`decksUsedToday`) counter, accumulated the same way. -/
def maxDecksUsedToday (parts : List Participant) : Nat :=
  parts.foldl (fun m s => max m (s.decksUsedToday.getD 0).toNat) 0

/-- Whether any participant carries a `decksUsedToday` field at all. -/
def anyTodayObserved (parts : List Participant) : Bool :=
  parts.any fun s => s.decksUsedToday.isSome

/-- The reset-boundary test in the colosseum branch of `inferWarDayIndex`:
a per-day counter is observed, it is zero everywhere, and the cumulative
maximum is a positive exact multiple of the per-day allotment 4. -/
def isResetBoundary (parts : List Participant) : Bool :=
  anyTodayObserved parts && decide (maxDecksUsedToday parts = 0)
    && decide (0 < maxDecksUsed parts) && decide (maxDecksUsed parts % 4 = 0)

/-- `inferWarDayIndex` from the war job. In a colosseum period the day is
inferred from the maximum cumulative deck counter with the reset-boundary
special case; otherwise an explicit `dayIndex`/`warDay` wins, then an
in-range `sectionIndex`, then a zero-based `sectionIndex` during a war
battle period. -/
def inferWarDayIndex (p : Payload) (parts : List Participant) : Option Int :=
  let pt := p.periodType.map normPT
  let st := p.state.map normPT
  if pt = some "colosseum" then
    let maxTotal := maxDecksUsed parts
    let inferred : Nat :=
      if isResetBoundary parts then maxTotal / 4 + 1
      else max 1 (((if maxTotal = 0 then 1 else maxTotal) + 3) / 4)
    clampWarDayIndex (some (inferred : Int))
  else
    match p.dayIndex <|> p.warDay with
    | some d => clampWarDayIndex (some d)
    | none =>
      match p.sectionIndex with
      | some si =>
        if 1 ≤ si ∧ si ≤ 5 then some si
        else
          let ptNonempty : Bool :=
            match pt with
            | some s => decide (s ≠ "")
            | none => false
          let isWarBattlePeriod : Bool :=
            decide (pt = some "warday")
            || (ptNonempty && strIncludes (pt.getD "") "war"
                && decide (pt ≠ some "colosseum"))
            || (!ptNonempty && decide (st = some "warday"))
          if isWarBattlePeriod ∧ 0 ≤ si ∧ si ≤ 4 then
            clampWarDayIndex (some (si + 1))
          else none
      | none => none

/-- Rendering of an optional integer key component, `na` marking absence. -/
def optIntNa (o : Option Int) : String :=
  match o with
  | some i => toString i
  | none => "na"

/-- `currentPeriodKey` from the war job:
`periodType:sectionIndex:dayIndex` with `na` markers, the day component
being the explicit `dayIndex`/`warDay` when present and the inferred day
index otherwise. -/
def currentPeriodKey (p : Payload) (parts : List Participant) : String :=
  let ptKey :=
    match p.periodType with
    | some s => if normPT s = "" then "unknown" else normPT s
    | none => "unknown"
  let day := (p.dayIndex <|> p.warDay) <|> inferWarDayIndex p parts
  ptKey ++ ":" ++ optIntNa p.sectionIndex ++ ":" ++ optIntNa day

/-- `isRegularWarBattleDay` from the war job: trust a numeric index field if
one exists (battle day iff it is in `1..5`), else fall back to
`periodType`. -/
def isRegularWarBattleDay (p : Payload) : Bool :=
  let pt := p.periodType.map normPT
  match p.dayIndex <|> p.warDay <|> p.sectionIndex with
  | some idx => decide (1 ≤ idx ∧ idx ≤ 5)
  | none =>
    if pt = some "warday" ∨ pt = some "colosseum" then true
    else
      match pt with
      | some s => decide (s ≠ "") && strIncludes s "war" && !strIncludes s "train"
      | none => false

/-- `normalizeTagUpper`: trim, uppercase, and ensure a leading `#`; empty
input yields no tag. -/
def normalizeTagUpper (raw : String) : Option String :=
  let s := jsTrim raw
  if s = "" then none
  else
    let up := jsToUpper s
    some (if jsStartsWith up "#" then up else "#" ++ up)

/-- `serializeParticipants`, and equally the loop that rebuilds the previous
participants map from a stored capture: keys are re-normalized and entries
whose tag normalizes to nothing are dropped. The tracker's own writes never
produce two keys with the same normalization, so the JS record/Map
last-write-wins detail is immaterial here. -/
def serializeParticipants (m : List (String × Participant)) :
    List (String × Participant) :=
  m.filterMap fun ts => (normalizeTagUpper ts.1).map fun t => (t, ts.2)

/-- One entry of the `war:day_snapshot:history` checkpoint value. The two
ISO renderings of the end instant collapse to `endAt`. -/
structure HistoryEntry where
  key : String
  endAt : Int
  capturedAt : Int
  periodType : Option String
  dayIndex : Option Int
  snapshot : List (String × Participant)
deriving DecidableEq

/-- The history bound `MAX` of `writeSnapshotHistory`. -/
def MAX_HISTORY : Nat := 50

/-- JavaScript `array.slice(-n)`: the at most `n` last elements. -/
def lastN (n : Nat) (l : List α) : List α := l.drop (l.length - n)

/-- `writeSnapshotHistory`: trim to the last `MAX_HISTORY` entries. -/
def writeSnapshotHistory (entries : List HistoryEntry) : List HistoryEntry :=
  lastN MAX_HISTORY entries

/-- `appendSnapshotHistory`: drop entries with the incoming key, push the
new entry at the end, then trim. -/
def appendSnapshotHistory (entries : List HistoryEntry) (e : HistoryEntry) :
    List HistoryEntry :=
  writeSnapshotHistory ((entries.filter fun x => x.key != e.key) ++ [e])

/-- The parsed `war:period:last_capture` checkpoint value. -/
structure Capture where
  capturedAt : Int
  periodKey : String
  periodType : Option String
  sectionIndex : Option Int
  payload : Option Payload
  snapshot : List (String × Participant)
deriving DecidableEq

/-- The war-job checkpoint rows driving the rollover tracker:
`war:period:last_key`, `war:period:last_capture`,
`war:day_snapshot:last_key`, `war:day_snapshot:last_snapshot` and
`war:day_snapshot:history`. -/
structure Db where
  periodLastKey : Option String
  periodLastCapture : Option Capture
  snapshotLastKey : Option String
  lastSnapshot : Option (List (String × Participant))
  history : List HistoryEntry
deriving DecidableEq

/-- The checkpoint state before the first poll ever. -/
def freshDb : Db := ⟨none, none, none, none, []⟩

/-- One externally visible primitive action of a tracker tick, in program
order: the channel post of a closed-period snapshot, or a single checkpoint
write. -/
inductive TrackOp where
  | postSnapshot (key : String) (endAt : Int) (dayIndex : Option Int)
      (periodType : Option String) (snapshot : List (String × Participant))
  | setLastSnapshot (s : List (String × Participant))
  | setSnapshotLastKey (k : String)
  | appendHistory (e : HistoryEntry)
  | setPeriodLastKey (k : String)
  | setPeriodLastCapture (c : Capture)
deriving DecidableEq

/-- The arguments handed to `postWarDaySnapshotFromCaptured`. -/
structure PostArgs where
  key : String
  endAt : Int
  payload : Payload
  current : List (String × Participant)

/-- The action sequence of `postWarDaySnapshotFromCaptured`: nothing when
the `war:day_snapshot:last_key` dedup guard fires or the payload is not
recognized as a regular war battle day; otherwise the channel post,
followed by the `last_snapshot` checkpoint, the `last_key` checkpoint and
the history append, in program order. The guild and channel lookups and the
embed rendering are external and assumed available. -/
def postWarDayOps (db : Db) (a : PostArgs) (now : Int) : List TrackOp :=
  if db.snapshotLastKey = some a.key then []
  else if isRegularWarBattleDay a.payload then
    let serialized := serializeParticipants a.current
    let dayIdx := inferWarDayIndex a.payload (a.current.map Prod.snd)
    [TrackOp.postSnapshot a.key a.endAt dayIdx a.payload.periodType serialized,
     TrackOp.setLastSnapshot serialized,
     TrackOp.setSnapshotLastKey a.key,
     TrackOp.appendHistory ⟨a.key, a.endAt, now, a.payload.periodType, dayIdx, serialized⟩]
  else []

/-- `prevPayload` in the rollover branch: the captured payload, or the
two-field fallback object for legacy captures that stored none. -/
def prevPayloadOf (c : Capture) : Payload :=
  c.payload.getD ⟨c.periodType, none, c.sectionIndex, none, none⟩

/-- `prevMap` in the rollover branch: the stored snapshot with its tags
re-normalized. -/
def prevMapOf (c : Capture) : List (String × Participant) :=
  serializeParticipants c.snapshot

/-- `prevPt` in the migration guard: the captured payload's `periodType`
when it is a string, else the `periodType` stored beside the capture. -/
def prevPtOf (c : Capture) : Option String :=
  match (prevPayloadOf c).periodType with
  | some s => some (normPT s)
  | none => c.periodType.map normPT

/-- `isKeyMigrationOnly`: the previously persisted key ends in the `:na`
null marker while the re-inferred day index (defined on both sides), the
section index and the period type all agree between the captured payload
and the current one. -/
def isKeyMigrationOnly (lastKey : String) (c : Capture) (payload : Payload)
    (parts : List Participant) : Bool :=
  jsEndsWith lastKey ":na"
  && (inferWarDayIndex (prevPayloadOf c) ((prevMapOf c).map Prod.snd)).isSome
  && (inferWarDayIndex payload parts).isSome
  && (inferWarDayIndex (prevPayloadOf c) ((prevMapOf c).map Prod.snd)
        == inferWarDayIndex payload parts)
  && ((prevPayloadOf c).sectionIndex == payload.sectionIndex)
  && ((prevPtOf c).getD "na" == (payload.periodType.map normPT).getD "na")

/-- The capture persisted at the end of every tick
(`war:period:last_capture`). -/
def capOf (payload : Payload) (parts : List (String × Participant))
    (now : Int) : Capture :=
  ⟨now, currentPeriodKey payload (parts.map Prod.snd), payload.periodType,
   payload.sectionIndex, some payload, serializeParticipants parts⟩

/-- One tick of `maybePostSnapshotOnPeriodChange`: detect a period-key
change, run the migration guard, possibly post the frozen previous capture,
then persist the current key and capture. The JSON parse of the stored
capture and the finiteness check on its timestamp always succeed for values
the tracker itself wrote, so they appear here only as the truthiness test
on the stored period key. -/
def tickOps (db : Db) (payload : Payload)
    (parts : List (String × Participant)) (now : Int) : List TrackOp :=
  let keyNow := currentPeriodKey payload (parts.map Prod.snd)
  let rollover : List TrackOp :=
    match db.periodLastKey, db.periodLastCapture with
    | some lastKey, some c =>
      if lastKey ≠ "" ∧ lastKey ≠ keyNow ∧ c.periodKey ≠ "" then
        if isKeyMigrationOnly lastKey c payload (parts.map Prod.snd) then []
        else
          postWarDayOps db
            ⟨"warDay:" ++ c.periodKey, c.capturedAt, prevPayloadOf c, prevMapOf c⟩ now
      else []
    | _, _ => []
  rollover ++
    [TrackOp.setPeriodLastKey keyNow,
     TrackOp.setPeriodLastCapture (capOf payload parts now)]

/-- Effect of one primitive action on the checkpoint rows; a channel post
changes no persisted state. -/
def applyOp (db : Db) : TrackOp → Db
  | TrackOp.postSnapshot _ _ _ _ _ => db
  | TrackOp.setLastSnapshot s => { db with lastSnapshot := some s }
  | TrackOp.setSnapshotLastKey k => { db with snapshotLastKey := some k }
  | TrackOp.appendHistory e => { db with history := appendSnapshotHistory db.history e }
  | TrackOp.setPeriodLastKey k => { db with periodLastKey := some k }
  | TrackOp.setPeriodLastCapture c => { db with periodLastCapture := some c }

/-- Run a sequence of primitive actions; a crash mid-tick corresponds to
applying only a prefix of the tick's action list. -/
def applyOps (db : Db) (ops : List TrackOp) : Db := ops.foldl applyOp db

/-- Whether an action is a channel post. -/
def isPostOp : TrackOp → Bool
  | TrackOp.postSnapshot _ _ _ _ _ => true
  | _ => false

/-- The channel posts among a tick's actions. -/
def postsOf (ops : List TrackOp) : List TrackOp := ops.filter isPostOp

/-- One poll tick's upstream input: the payload, the extracted participants
map, and the wall-clock instant of the tick. -/
structure TickInput where
  payload : Payload
  parts : List (String × Participant)
  now : Int

/-- Run the tracker over a sequence of poll ticks, collecting every channel
post. -/
def runTicks (db : Db) : List TickInput → Db × List TrackOp
  | [] => (db, [])
  | i :: rest =>
    let ops := tickOps db i.payload i.parts i.now
    let r := runTicks (applyOps db ops) rest
    (r.1, postsOf ops ++ r.2)

/-- Persisted per-account settle state (`role_sync:pending:<accountId>`). -/
structure SettleState where
  desired : String
  n : Int
deriving DecidableEq

/-- The per-account state seen by one `syncRolesOnce` iteration: the clan
role key currently derivable from the member's Discord roles (the sentinel
`vanquished` when no clan role is present), the vanquished-role flag, and
the persisted settle state. -/
structure AccountState where
  applied : String
  hasVanquished : Bool
  pending : Option SettleState
deriving DecidableEq

/-- One `syncRolesOnce` iteration for one linked account; `desired` is
`desiredKeyFromClanRole` of the roster lookup. Returns the updated state
and the role-set command handed to `applyMemberRoles`, if any. When
`applyOk` is true the member's Discord roles end up matching the command,
as `applyMemberRoles` establishes; when it is false every role mutation
failed downstream and the member's roles are unchanged. -/
def syncStep (applyOk : Bool) (st : AccountState) (desired : String) :
    AccountState × Option String :=
  let current := st.applied
  let currentVanquished := st.hasVanquished && current == "vanquished"
  let desiredVanquished := desired == "vanquished"
  if current = desired ∧ currentVanquished = desiredVanquished then
    ({ st with pending := some ⟨desired, 2⟩ }, none)
  else if st.pending.map SettleState.desired ≠ some desired then
    ({ st with pending := some ⟨desired, 1⟩ }, none)
  else
    let n := ((st.pending.map SettleState.n).getD 0)
    let nextN := min (n + 1) 5
    let st1 := { st with pending := some ⟨desired, nextN⟩ }
    if nextN < 2 then (st1, none)
    else if applyOk then
      ({ st1 with applied := desired, hasVanquished := desiredVanquished },
       some desired)
    else (st1, some desired)

/-- Run the role engine for one account over a sequence of polls during
which every emitted command is applied successfully downstream, collecting
the role-set commands. -/
def runSync (st : AccountState) : List String → AccountState × List String
  | [] => (st, [])
  | d :: ds =>
    let r1 := syncStep true st d
    let r := runSync r1.1 ds
    (r.1, r1.2.toList ++ r.2)

/-- A history entry with a numbered key, used in concrete scenarios. -/
def mkHE (i : Nat) (t : Int) : HistoryEntry :=
  ⟨"k" ++ toString i, t, t, none, none, []⟩

/-- A full 50-entry store whose head carries the largest end timestamp. -/
def histC7 : List HistoryEntry :=
  mkHE 0 1000 :: ((List.range 49).map fun i => mkHE (i + 1) ((i : Int) + 1))

/-- Sixty distinct-key entries appended in order. -/
def hist60 : List HistoryEntry := (List.range 60).map fun i => mkHE i (i : Int)

/-! ### Lemmas about the rollover tracker -/

theorem tickOps_no_prev (db : Db) (payload : Payload)
    (parts : List (String × Participant)) (now : Int)
    (h : db.periodLastKey = none ∨ db.periodLastCapture = none) :
    tickOps db payload parts now =
      [TrackOp.setPeriodLastKey (currentPeriodKey payload (parts.map Prod.snd)),
       TrackOp.setPeriodLastCapture (capOf payload parts now)] := by
  rcases h with h | h
  · simp [tickOps, h]
  · rcases hk : db.periodLastKey with _ | k <;> simp [tickOps, h, hk]

theorem tickOps_same_key (db : Db) (payload : Payload)
    (parts : List (String × Participant)) (now : Int) (k : String)
    (h1 : db.periodLastKey = some k)
    (h2 : k = currentPeriodKey payload (parts.map Prod.snd)) :
    tickOps db payload parts now =
      [TrackOp.setPeriodLastKey (currentPeriodKey payload (parts.map Prod.snd)),
       TrackOp.setPeriodLastCapture (capOf payload parts now)] := by
  rcases hc : db.periodLastCapture with _ | c
  · simp [tickOps, h1, hc]
  · simp only [tickOps, h1, hc]
    rw [if_neg fun hcon => hcon.2.1 h2]
    simp

theorem tickOps_rollover (db : Db) (payload : Payload)
    (parts : List (String × Participant)) (now : Int) (lk : String) (c : Capture)
    (h1 : db.periodLastKey = some lk) (h2 : db.periodLastCapture = some c)
    (hne : lk ≠ "" ∧ lk ≠ currentPeriodKey payload (parts.map Prod.snd)
      ∧ c.periodKey ≠ "") :
    tickOps db payload parts now =
      (if isKeyMigrationOnly lk c payload (parts.map Prod.snd) then []
       else postWarDayOps db
         ⟨"warDay:" ++ c.periodKey, c.capturedAt, prevPayloadOf c, prevMapOf c⟩ now)
      ++ [TrackOp.setPeriodLastKey (currentPeriodKey payload (parts.map Prod.snd)),
          TrackOp.setPeriodLastCapture (capOf payload parts now)] := by
  simp only [tickOps, h1, h2]
  rw [if_pos hne]

theorem postWarDayOps_not_battle_day (db : Db) (a : PostArgs) (now : Int)
    (h : isRegularWarBattleDay a.payload = false) :
    postWarDayOps db a now = [] := by
  by_cases hk : db.snapshotLastKey = some a.key
  · simp [postWarDayOps, hk]
  · simp [postWarDayOps, hk, h]

theorem postWarDayOps_post (db : Db) (a : PostArgs) (now : Int)
    (hk : db.snapshotLastKey ≠ some a.key)
    (hreg : isRegularWarBattleDay a.payload = true) :
    postWarDayOps db a now =
      [TrackOp.postSnapshot a.key a.endAt
          (inferWarDayIndex a.payload (a.current.map Prod.snd)) a.payload.periodType
          (serializeParticipants a.current),
       TrackOp.setLastSnapshot (serializeParticipants a.current),
       TrackOp.setSnapshotLastKey a.key,
       TrackOp.appendHistory
         ⟨a.key, a.endAt, now, a.payload.periodType,
          inferWarDayIndex a.payload (a.current.map Prod.snd),
          serializeParticipants a.current⟩] := by
  simp [postWarDayOps, hk, hreg]

/-- A rollover tick whose every guard passes produces exactly the post
followed by the four checkpoint writes, in program order. -/
theorem tickOps_posting (db : Db) (payload : Payload)
    (parts : List (String × Participant)) (now : Int) (lk : String) (c : Capture)
    (h1 : db.periodLastKey = some lk) (h2 : db.periodLastCapture = some c)
    (hne : lk ≠ "" ∧ lk ≠ currentPeriodKey payload (parts.map Prod.snd)
      ∧ c.periodKey ≠ "")
    (hmig : isKeyMigrationOnly lk c payload (parts.map Prod.snd) = false)
    (hprev : db.snapshotLastKey ≠ some ("warDay:" ++ c.periodKey))
    (hreg : isRegularWarBattleDay (prevPayloadOf c) = true) :
    tickOps db payload parts now =
      [TrackOp.postSnapshot ("warDay:" ++ c.periodKey) c.capturedAt
          (inferWarDayIndex (prevPayloadOf c) ((prevMapOf c).map Prod.snd))
          (prevPayloadOf c).periodType (serializeParticipants (prevMapOf c)),
       TrackOp.setLastSnapshot (serializeParticipants (prevMapOf c)),
       TrackOp.setSnapshotLastKey ("warDay:" ++ c.periodKey),
       TrackOp.appendHistory
         ⟨"warDay:" ++ c.periodKey, c.capturedAt, now, (prevPayloadOf c).periodType,
          inferWarDayIndex (prevPayloadOf c) ((prevMapOf c).map Prod.snd),
          serializeParticipants (prevMapOf c)⟩,
       TrackOp.setPeriodLastKey (currentPeriodKey payload (parts.map Prod.snd)),
       TrackOp.setPeriodLastCapture (capOf payload parts now)] := by
  rw [tickOps_rollover db payload parts now lk c h1 h2 hne, if_neg (by simp [hmig]),
    postWarDayOps_post db _ now hprev hreg]
  rfl

theorem runTicks_nil (db : Db) : runTicks db [] = (db, []) := rfl

theorem runTicks_cons_eq (db : Db) (i : TickInput) (rest : List TickInput)
    (ops : List TrackOp) (h : tickOps db i.payload i.parts i.now = ops) :
    runTicks db (i :: rest) =
      ((runTicks (applyOps db ops) rest).1,
       postsOf ops ++ (runTicks (applyOps db ops) rest).2) := by
  simp [runTicks, h]

theorem runTicks_append (l1 l2 : List TickInput) :
    ∀ db : Db, runTicks db (l1 ++ l2) =
      ((runTicks (runTicks db l1).1 l2).1,
       (runTicks db l1).2 ++ (runTicks (runTicks db l1).1 l2).2) := by
  induction l1 with
  | nil =>
    intro db
    simp [runTicks]
  | cons i rest ih =>
    intro db
    simp [runTicks, ih]

theorem applyOps_two_sets (db : Db) (k : String) (c : Capture) :
    applyOps db
      [TrackOp.setPeriodLastKey k, TrackOp.setPeriodLastCapture c] =
      { db with periodLastKey := some k, periodLastCapture := some c } := rfl

theorem postsOf_two_sets (k : String) (c : Capture) :
    postsOf [TrackOp.setPeriodLastKey k, TrackOp.setPeriodLastCapture c] = [] := rfl

theorem applyOps_posting (db : Db) (k : String) (e0 : Int) (di : Option Int)
    (pt : Option String) (snap : List (String × Participant)) (e : HistoryEntry)
    (k2 : String) (c2 : Capture) :
    applyOps db
      [TrackOp.postSnapshot k e0 di pt snap, TrackOp.setLastSnapshot snap,
       TrackOp.setSnapshotLastKey k, TrackOp.appendHistory e,
       TrackOp.setPeriodLastKey k2, TrackOp.setPeriodLastCapture c2] =
      { db with
          periodLastKey := some k2,
          periodLastCapture := some c2,
          snapshotLastKey := some k,
          lastSnapshot := some snap,
          history := appendSnapshotHistory db.history e } := rfl

theorem postsOf_posting (k : String) (e0 : Int) (di : Option Int)
    (pt : Option String) (snap : List (String × Participant)) (e : HistoryEntry)
    (k2 : String) (c2 : Capture) :
    postsOf
      [TrackOp.postSnapshot k e0 di pt snap, TrackOp.setLastSnapshot snap,
       TrackOp.setSnapshotLastKey k, TrackOp.appendHistory e,
       TrackOp.setPeriodLastKey k2, TrackOp.setPeriodLastCapture c2] =
      [TrackOp.postSnapshot k e0 di pt snap] := rfl

theorem serializeParticipants_of_normalized :
    ∀ l : List (String × Participant),
      (∀ ts ∈ l, normalizeTagUpper ts.1 = some ts.1) →
      serializeParticipants l = l := by
  intro l
  induction l with
  | nil =>
    intro _
    rfl
  | cons ts rest ih =>
    intro h
    have hhd : normalizeTagUpper ts.1 = some ts.1 := h ts (by simp)
    have htl := ih fun x hx => h x (by simp [hx])
    simp only [serializeParticipants, List.filterMap_cons, hhd, Option.map_some']
    simp only [serializeParticipants] at htl
    rw [htl]

/-- Ticks whose derived key equals the persisted one never post. -/
theorem runTicks_same_key (kB : String) (inputs : List TickInput) :
    ∀ db : Db, db.periodLastKey = some kB →
      (∀ i ∈ inputs, currentPeriodKey i.payload (i.parts.map Prod.snd) = kB) →
      (runTicks db inputs).2 = [] := by
  induction inputs with
  | nil =>
    intro db _ _
    simp [runTicks]
  | cons i rest ih =>
    intro db hdb hkeys
    have hk : currentPeriodKey i.payload (i.parts.map Prod.snd) = kB :=
      hkeys i (by simp)
    have ht := tickOps_same_key db i.payload i.parts i.now kB hdb hk.symm
    rw [runTicks_cons_eq db i rest _ ht, applyOps_two_sets, postsOf_two_sets]
    simp only [List.nil_append]
    apply ih
    · simp [hk]
    · intro j hj
      exact hkeys j (by simp [hj])

/-- A crash that preserved the three guard checkpoints leaves the next tick
posting again. -/
theorem tick_retry_after_crash (db : Db) (payload : Payload)
    (parts : List (String × Participant)) (now : Int) (lk : String) (c : Capture)
    (h1 : db.periodLastKey = some lk) (h2 : db.periodLastCapture = some c)
    (hne : lk ≠ "" ∧ lk ≠ currentPeriodKey payload (parts.map Prod.snd)
      ∧ c.periodKey ≠ "")
    (hmig : isKeyMigrationOnly lk c payload (parts.map Prod.snd) = false)
    (hprev : db.snapshotLastKey ≠ some ("warDay:" ++ c.periodKey))
    (hreg : isRegularWarBattleDay (prevPayloadOf c) = true)
    (db' : Db)
    (e1 : db'.periodLastKey = db.periodLastKey)
    (e2 : db'.periodLastCapture = db.periodLastCapture)
    (e3 : db'.snapshotLastKey = db.snapshotLastKey) :
    postsOf (tickOps db' payload parts now) ≠ [] := by
  rw [tickOps_posting db' payload parts now lk c (e1 ▸ h1) (e2 ▸ h2) hne hmig
    (e3 ▸ hprev) hreg]
  simp [postsOf, isPostOp]

/-- C10: on a rollover whose frozen capture is not recognized as a regular
war battle day, the finalize step is a public no-op: no snapshot is posted,
the history is unchanged, and the emitted-key and last-snapshot checkpoints
are untouched (only the tracking key and capture advance). -/
theorem non_battle_day_finalize_noop (db : Db) (payload : Payload)
    (parts : List (String × Participant)) (now : Int) (lk : String) (c : Capture)
    (h1 : db.periodLastKey = some lk) (h2 : db.periodLastCapture = some c)
    (hne : lk ≠ "" ∧ lk ≠ currentPeriodKey payload (parts.map Prod.snd)
      ∧ c.periodKey ≠ "")
    (hreg : isRegularWarBattleDay (prevPayloadOf c) = false) :
    postsOf (tickOps db payload parts now) = []
    ∧ (applyOps db (tickOps db payload parts now)).history = db.history
    ∧ (applyOps db (tickOps db payload parts now)).snapshotLastKey
        = db.snapshotLastKey
    ∧ (applyOps db (tickOps db payload parts now)).lastSnapshot
        = db.lastSnapshot := by
  have hops : tickOps db payload parts now =
      [TrackOp.setPeriodLastKey (currentPeriodKey payload (parts.map Prod.snd)),
       TrackOp.setPeriodLastCapture (capOf payload parts now)] := by
    rw [tickOps_rollover db payload parts now lk c h1 h2 hne,
      postWarDayOps_not_battle_day db _ now hreg]
    simp
  rw [hops]
  exact ⟨rfl, rfl, rfl, rfl⟩

/-- C10, witness: a training-period capture rolls over without a post or any
history/emitted-key change. -/
theorem non_battle_day_finalize_noop_witness :
    postsOf (tickOps
      ⟨some "training:na:na",
       some ⟨10, "training:na:na", some "training", none,
         some ⟨some "training", none, none, none, none⟩, []⟩, none, none, []⟩
      ⟨some "warday", none, none, some 2, none⟩ [] 11) = []
    ∧ (applyOps
        ⟨some "training:na:na",
         some ⟨10, "training:na:na", some "training", none,
           some ⟨some "training", none, none, none, none⟩, []⟩, none, none, []⟩
        (tickOps
          ⟨some "training:na:na",
           some ⟨10, "training:na:na", some "training", none,
             some ⟨some "training", none, none, none, none⟩, []⟩, none, none, []⟩
          ⟨some "warday", none, none, some 2, none⟩ [] 11)).history = [] := by
  have h := non_battle_day_finalize_noop
    ⟨some "training:na:na",
     some ⟨10, "training:na:na", some "training", none,
       some ⟨some "training", none, none, none, none⟩, []⟩, none, none, []⟩
    ⟨some "warday", none, none, some 2, none⟩ [] 11 "training:na:na"
    ⟨10, "training:na:na", some "training", none,
      some ⟨some "training", none, none, none, none⟩, []⟩
    rfl rfl (by decide) (by decide)
  exact ⟨h.1, h.2.1⟩

/-- C5: when the only change between the persisted key and the current one
is the appearance of a previously missing inferred day index (the stored
key ends in the `:na` marker while period type, section index and the
re-inferred day all agree), the rollover is suppressed: nothing is posted
and no snapshot state changes. -/
theorem migration_guard_suppresses_rollover (db : Db) (payload : Payload)
    (parts : List (String × Participant)) (now : Int) (lk : String) (c : Capture)
    (h1 : db.periodLastKey = some lk) (h2 : db.periodLastCapture = some c)
    (hne : lk ≠ "" ∧ lk ≠ currentPeriodKey payload (parts.map Prod.snd)
      ∧ c.periodKey ≠ "")
    (hmig : isKeyMigrationOnly lk c payload (parts.map Prod.snd) = true) :
    postsOf (tickOps db payload parts now) = []
    ∧ (applyOps db (tickOps db payload parts now)).history = db.history
    ∧ (applyOps db (tickOps db payload parts now)).snapshotLastKey
        = db.snapshotLastKey
    ∧ (applyOps db (tickOps db payload parts now)).lastSnapshot
        = db.lastSnapshot := by
  have hops : tickOps db payload parts now =
      [TrackOp.setPeriodLastKey (currentPeriodKey payload (parts.map Prod.snd)),
       TrackOp.setPeriodLastCapture (capOf payload parts now)] := by
    rw [tickOps_rollover db payload parts now lk c h1 h2 hne, if_pos hmig]
    simp
  rw [hops]
  exact ⟨rfl, rfl, rfl, rfl⟩

/-- C5, witness: a legacy `warday:3:na` key upgrading to `warday:3:3` with
identical period type, section and re-inferred day posts nothing. -/
theorem migration_guard_suppresses_rollover_witness :
    postsOf (tickOps
      ⟨some "warday:3:na",
       some ⟨7, "warday:3:na", some "warday", some 3,
         some ⟨some "warday", none, some 3, none, none⟩, []⟩, none, none, []⟩
      ⟨some "warday", none, some 3, none, none⟩ [] 8) = []
    ∧ (applyOps
        ⟨some "warday:3:na",
         some ⟨7, "warday:3:na", some "warday", some 3,
           some ⟨some "warday", none, some 3, none, none⟩, []⟩, none, none, []⟩
        (tickOps
          ⟨some "warday:3:na",
           some ⟨7, "warday:3:na", some "warday", some 3,
             some ⟨some "warday", none, some 3, none, none⟩, []⟩, none, none, []⟩
          ⟨some "warday", none, some 3, none, none⟩ [] 8)).history = [] := by
  have h := migration_guard_suppresses_rollover
    ⟨some "warday:3:na",
     some ⟨7, "warday:3:na", some "warday", some 3,
       some ⟨some "warday", none, some 3, none, none⟩, []⟩, none, none, []⟩
    ⟨some "warday", none, some 3, none, none⟩ [] 8 "warday:3:na"
    ⟨7, "warday:3:na", some "warday", some 3,
      some ⟨some "warday", none, some 3, none, none⟩, []⟩
    rfl rfl (by decide) (by decide)
  exact ⟨h.1, h.2.1⟩

/-- C8: on a posting rollover, the tick's actions place the
`war:day_snapshot:last_key` checkpoint write strictly after the channel
post (and after the last-snapshot write), and a crash that executes only a
prefix of the actions up to but not including that checkpoint write leaves
a state from which the next tick attempts the post again. -/
theorem emitted_key_checkpoint_after_post (db : Db) (payload : Payload)
    (parts : List (String × Participant)) (now : Int) (lk : String) (c : Capture)
    (h1 : db.periodLastKey = some lk) (h2 : db.periodLastCapture = some c)
    (hne : lk ≠ "" ∧ lk ≠ currentPeriodKey payload (parts.map Prod.snd)
      ∧ c.periodKey ≠ "")
    (hmig : isKeyMigrationOnly lk c payload (parts.map Prod.snd) = false)
    (hprev : db.snapshotLastKey ≠ some ("warDay:" ++ c.periodKey))
    (hreg : isRegularWarBattleDay (prevPayloadOf c) = true) :
    tickOps db payload parts now =
      [TrackOp.postSnapshot ("warDay:" ++ c.periodKey) c.capturedAt
          (inferWarDayIndex (prevPayloadOf c) ((prevMapOf c).map Prod.snd))
          (prevPayloadOf c).periodType (serializeParticipants (prevMapOf c)),
       TrackOp.setLastSnapshot (serializeParticipants (prevMapOf c)),
       TrackOp.setSnapshotLastKey ("warDay:" ++ c.periodKey),
       TrackOp.appendHistory
         ⟨"warDay:" ++ c.periodKey, c.capturedAt, now, (prevPayloadOf c).periodType,
          inferWarDayIndex (prevPayloadOf c) ((prevMapOf c).map Prod.snd),
          serializeParticipants (prevMapOf c)⟩,
       TrackOp.setPeriodLastKey (currentPeriodKey payload (parts.map Prod.snd)),
       TrackOp.setPeriodLastCapture (capOf payload parts now)]
    ∧ ∀ n ≤ 2,
        postsOf (tickOps (applyOps db ((tickOps db payload parts now).take n))
          payload parts now) ≠ [] := by
  have ht := tickOps_posting db payload parts now lk c h1 h2 hne hmig hprev hreg
  refine ⟨ht, ?_⟩
  intro n hn
  interval_cases n
  · exact tick_retry_after_crash db payload parts now lk c h1 h2 hne hmig hprev
      hreg _ rfl rfl rfl
  · rw [ht]
    exact tick_retry_after_crash db payload parts now lk c h1 h2 hne hmig hprev
      hreg _ rfl rfl rfl
  · rw [ht]
    exact tick_retry_after_crash db payload parts now lk c h1 h2 hne hmig hprev
      hreg _ rfl rfl rfl

/-- C8, witness: a crash right after the post and the last-snapshot write
(two actions executed, checkpoint not yet written) is retried by the next
tick. -/
theorem emitted_key_checkpoint_after_post_witness :
    postsOf (tickOps
      (applyOps
        ⟨some "warday:3:2",
         some ⟨3, "warday:3:2", some "warday", some 3,
           some ⟨some "warday", none, some 3, some 2, none⟩, []⟩, none, none, []⟩
        ((tickOps
          ⟨some "warday:3:2",
           some ⟨3, "warday:3:2", some "warday", some 3,
             some ⟨some "warday", none, some 3, some 2, none⟩, []⟩, none, none, []⟩
          ⟨some "warday", none, some 3, some 3, none⟩ [] 20).take 2))
      ⟨some "warday", none, some 3, some 3, none⟩ [] 20) ≠ [] :=
  (emitted_key_checkpoint_after_post
    ⟨some "warday:3:2",
     some ⟨3, "warday:3:2", some "warday", some 3,
       some ⟨some "warday", none, some 3, some 2, none⟩, []⟩, none, none, []⟩
    ⟨some "warday", none, some 3, some 3, none⟩ [] 20 "warday:3:2"
    ⟨3, "warday:3:2", some "warday", some 3,
      some ⟨some "warday", none, some 3, some 2, none⟩, []⟩
    rfl rfl (by decide) (by decide) (by decide) (by decide)).2 2 (by omega)

/-! ### Lemmas about the role engine -/

theorem syncStep_already_correct (ok : Bool) (st : AccountState) (d : String)
    (hc : st.applied = d)
    (hv : (st.hasVanquished && st.applied == "vanquished") = (d == "vanquished")) :
    syncStep ok st d = ({ st with pending := some ⟨d, 2⟩ }, none) := by
  simp only [syncStep]
  rw [if_pos ⟨hc, hv⟩]

theorem syncStep_new_desired (ok : Bool) (st : AccountState) (d : String)
    (hnc : ¬ (st.applied = d
      ∧ (st.hasVanquished && st.applied == "vanquished") = (d == "vanquished")))
    (hmis : st.pending.map SettleState.desired ≠ some d) :
    syncStep ok st d = ({ st with pending := some ⟨d, 1⟩ }, none) := by
  simp only [syncStep]
  rw [if_neg hnc, if_pos hmis]

theorem syncStep_fire (ok : Bool) (st : AccountState) (d : String) (s : SettleState)
    (hp : st.pending = some s) (hd : s.desired = d) (hn : 1 ≤ s.n)
    (hnc : ¬ (st.applied = d
      ∧ (st.hasVanquished && st.applied == "vanquished") = (d == "vanquished"))) :
    syncStep ok st d =
      (if ok then
        { st with
            applied := d,
            hasVanquished := (d == "vanquished"),
            pending := some ⟨d, min (s.n + 1) 5⟩ }
       else { st with pending := some ⟨d, min (s.n + 1) 5⟩ }, some d) := by
  simp only [syncStep, hp, Option.map_some', Option.getD_some, hd]
  rw [if_neg hnc, if_neg (by simp), if_neg (by omega)]
  cases ok <;> simp

theorem runSync_settled (k : Nat) (R : String) :
    ∀ st : AccountState, st.applied = R → st.hasVanquished = (R == "vanquished") →
      (runSync st (List.replicate k R)).2 = [] := by
  induction k with
  | zero =>
    intro st _ _
    simp [runSync]
  | succ k ih =>
    intro st h1 h2
    have hv : (st.hasVanquished && st.applied == "vanquished") = (R == "vanquished") := by
      rw [h1, h2]
      cases h : (R == "vanquished") <;> simp
    rw [List.replicate_succ]
    simp only [runSync, syncStep_already_correct true st R h1 hv]
    simpa using ih { st with pending := some ⟨R, 2⟩ } h1 h2

theorem runSync_append (l1 l2 : List String) :
    ∀ st : AccountState, runSync st (l1 ++ l2) =
      ((runSync (runSync st l1).1 l2).1,
        (runSync st l1).2 ++ (runSync (runSync st l1).1 l2).2) := by
  induction l1 with
  | nil =>
    intro st
    simp [runSync]
  | cons d ds ih =>
    intro st
    simp [runSync, ih]

/-- During a strictly oscillating sequence of desired values (no two
consecutive polls agree) that never starts at the persisted pending value,
the engine issues no command, leaves the applied role untouched, and ends
with a pending value whose desired entry is the last polled value. -/
theorem runSync_oscillating (ds : List String) :
    ∀ st : AccountState, List.Chain' Ne ds →
      (∀ s, st.pending = some s → ds.head? ≠ some s.desired) →
      (runSync st ds).2 = []
      ∧ (runSync st ds).1.applied = st.applied
      ∧ (runSync st ds).1.hasVanquished = st.hasVanquished
      ∧ (∀ s, (runSync st ds).1.pending = some s →
          ds.getLast? = some s.desired ∨ (ds = [] ∧ st.pending = some s)) := by
  induction ds with
  | nil =>
    intro st _ _
    simp [runSync]
  | cons d rest ih =>
    intro st hchain hhead
    have hmis : st.pending.map SettleState.desired ≠ some d := by
      intro h
      match hp : st.pending with
      | none => rw [hp] at h; simp at h
      | some s =>
        rw [hp] at h
        simp only [Option.map_some', Option.some.injEq] at h
        exact hhead s hp (by simp [h])
    have hstep : ∃ st1 : AccountState, syncStep true st d = (st1, none)
        ∧ st1.applied = st.applied ∧ st1.hasVanquished = st.hasVanquished
        ∧ ∃ k : Int, st1.pending = some ⟨d, k⟩ := by
      by_cases hcor : st.applied = d
        ∧ (st.hasVanquished && st.applied == "vanquished") = (d == "vanquished")
      · exact ⟨_, syncStep_already_correct true st d hcor.1 hcor.2, rfl, rfl, 2, rfl⟩
      · exact ⟨_, syncStep_new_desired true st d hcor hmis, rfl, rfl, 1, rfl⟩
    obtain ⟨st1, hs, ha, hvq, k, hpend1⟩ := hstep
    have hchain' : List.Chain' Ne rest := hchain.tail
    have hhead' : ∀ s, st1.pending = some s → rest.head? ≠ some s.desired := by
      intro s hp1
      rw [hpend1] at hp1
      cases hp1
      match rest, hchain with
      | [], _ => simp
      | r :: rs, hch =>
        have : d ≠ r := (List.chain'_cons.mp hch).1
        simpa using fun h => this h.symm
    obtain ⟨ih1, ih2, ih3, ih4⟩ := ih st1 hchain' hhead'
    refine ⟨?_, ?_, ?_, ?_⟩
    · simp [runSync, hs, ih1]
    · simp [runSync, hs, ih2, ha]
    · simp [runSync, hs, ih3, hvq]
    · intro s hp
      simp only [runSync, hs] at hp
      rcases ih4 s hp with h | h
      · left
        rcases rest with _ | ⟨r, rs⟩
        · simp at h
        · simpa [List.getLast?_cons_cons] using h
      · left
        rcases h with ⟨hrest, hps⟩
        subst hrest
        rw [hpend1] at hps
        cases hps
        simp

/-- C2: for any linked account whose roster ranks oscillate for a finite
prefix and then stabilize on `R` for at least two consecutive polls, with
the downstream role initially different from `R`, the engine emits exactly
one role-set command, to `R`; and in general a command is only ever emitted
when the persisted consecutive-agreement counter stored for that desired
role has reached `2`. -/
theorem settling_convergence (pre : List String) (R : String) (m : Nat)
    (st0 : AccountState)
    (hpend : st0.pending = none)
    (hosc : List.Chain' Ne pre)
    (hlast : pre.getLast? ≠ some R)
    (hR : st0.applied ≠ R)
    (hm : 2 ≤ m) :
    (runSync st0 (pre ++ List.replicate m R)).2 = [R]
    ∧ ∀ (ok : Bool) (st : AccountState) (d : String),
        (syncStep ok st d).2.isSome = true →
        ∃ k : Int, (syncStep ok st d).1.pending = some ⟨d, k⟩ ∧ 2 ≤ k := by
  constructor
  · obtain ⟨m', rfl⟩ : ∃ m', m = m' + 2 := ⟨m - 2, by omega⟩
    have hhead0 : ∀ s, st0.pending = some s → pre.head? ≠ some s.desired := by
      intro s hp
      rw [hpend] at hp
      cases hp
    obtain ⟨h1, h2, h3, h4⟩ := runSync_oscillating pre st0 hosc hhead0
    set st1 := (runSync st0 pre).1 with hst1
    have hA1 : st1.applied ≠ R := h2 ▸ hR
    have hmis1 : st1.pending.map SettleState.desired ≠ some R := by
      intro h
      match hp : st1.pending with
      | none => rw [hp] at h; simp at h
      | some s =>
        rw [hp] at h
        simp only [Option.map_some', Option.some.injEq] at h
        rcases h4 s hp with hl | hl
        · exact hlast (h ▸ hl)
        · rw [hpend] at hl
          simp at hl
    have hnc1 : ¬ (st1.applied = R
        ∧ (st1.hasVanquished && st1.applied == "vanquished") = (R == "vanquished")) :=
      fun h => hA1 h.1
    have hs1 := syncStep_new_desired true st1 R hnc1 hmis1
    have hnc2 : ¬ (({ st1 with pending := some ⟨R, 1⟩ } : AccountState).applied = R
        ∧ (({ st1 with pending := some ⟨R, 1⟩ } : AccountState).hasVanquished
            && ({ st1 with pending := some ⟨R, 1⟩ } : AccountState).applied
              == "vanquished") = (R == "vanquished")) :=
      fun h => hA1 h.1
    have hs2 := syncStep_fire true { st1 with pending := some ⟨R, 1⟩ } R ⟨R, 1⟩
      rfl rfl (le_refl (1 : Int)) hnc2
    rw [if_pos rfl] at hs2
    have hrepl : List.replicate (m' + 2) R = R :: R :: List.replicate m' R := rfl
    rw [runSync_append, h1, hrepl]
    simp only [runSync, hs1, hs2]
    rw [runSync_settled m' R _ rfl rfl]
    simp
  · intro ok st d hcmd
    by_cases hcor : st.applied = d
      ∧ (st.hasVanquished && st.applied == "vanquished") = (d == "vanquished")
    · rw [syncStep_already_correct ok st d hcor.1 hcor.2] at hcmd
      simp at hcmd
    · by_cases hmis : st.pending.map SettleState.desired ≠ some d
      · rw [syncStep_new_desired ok st d hcor hmis] at hcmd
        simp at hcmd
      · match hp : st.pending with
        | none => rw [hp] at hmis; simp at hmis
        | some s =>
          have hd : s.desired = d := by
            rw [hp] at hmis
            simpa using hmis
          by_cases hn : 1 ≤ s.n
          · have := syncStep_fire ok st d s hp hd hn hcor
            refine ⟨min (s.n + 1) 5, ?_, by omega⟩
            rw [this]
            cases ok <;> simp
          · exfalso
            simp only [syncStep, hp, Option.map_some', Option.getD_some, hd] at hcmd
            rw [if_neg hcor, if_neg (by simp)] at hcmd
            rw [if_pos (by omega)] at hcmd
            simp at hcmd

/-- C2, witness: a two-poll oscillation (`elder`, `member`) followed by two
stable `elder` polls for a member currently holding `member` yields exactly
one `elder` role-set command. -/
theorem settling_convergence_witness :
    (runSync ⟨"member", false, none⟩
      (["elder", "member"] ++ List.replicate 2 "elder")).2 = ["elder"] :=
  (settling_convergence ["elder", "member"] "elder" 2 ⟨"member", false, none⟩
    rfl (by simp) (by simp) (by simp) (by omega)).1

/-- C6: a single-poll anomaly — the roster rank flips to `X` for one poll
and returns to the settled value `R` on the next and all later polls —
never produces a role-set command, for any persisted settle state not
already waiting on `X`. -/
theorem single_poll_anomaly_no_command (R X : String) (hne : X ≠ R)
    (p0 : Option SettleState) (hp : ∀ s, p0 = some s → s.desired ≠ X) (k : Nat) :
    (runSync ⟨R, R == "vanquished", p0⟩ (X :: List.replicate k R)).2 = [] := by
  have hnc : ¬ ((⟨R, R == "vanquished", p0⟩ : AccountState).applied = X
      ∧ ((⟨R, R == "vanquished", p0⟩ : AccountState).hasVanquished
          && (⟨R, R == "vanquished", p0⟩ : AccountState).applied == "vanquished")
        = (X == "vanquished")) := by
    intro h
    exact hne h.1.symm
  have hmis : (⟨R, R == "vanquished", p0⟩ : AccountState).pending.map
      SettleState.desired ≠ some X := by
    intro h
    obtain ⟨s, hs, hds⟩ := Option.map_eq_some'.mp h
    exact hp s hs hds
  have hstep := syncStep_new_desired true ⟨R, R == "vanquished", p0⟩ X hnc hmis
  simp only [runSync, hstep]
  simpa using runSync_settled k R _ rfl rfl

/-- C6, witness: a settled `elder` member whose roster briefly reads
`member` for one poll receives no command over that poll and the next
three. -/
theorem single_poll_anomaly_no_command_witness :
    (runSync ⟨"elder", "elder" == "vanquished", some ⟨"elder", 2⟩⟩
      ("member" :: List.replicate 3 "elder")).2 = [] :=
  single_poll_anomaly_no_command "elder" "member" (by decide)
    (some ⟨"elder", 2⟩) (by intro s h; cases h; decide) 3

/-- C9: when the downstream apply fails for an account (its Discord roles
are unchanged by the tick), the tick still emitted the command after
persisting exactly the counter value that triggered it, the settle state is
not advanced past the apply step (applied role and flag untouched), and the
next tick with the same desired value fires the command again. -/
theorem failed_apply_retries_next_tick (st : AccountState) (d : String)
    (s : SettleState) (hpend : st.pending = some s) (hd : s.desired = d)
    (hn : 1 ≤ s.n) (happ : st.applied ≠ d) :
    (syncStep false st d).2 = some d
    ∧ (syncStep false st d).1.pending = some ⟨d, min (s.n + 1) 5⟩
    ∧ 2 ≤ min (s.n + 1) 5
    ∧ (syncStep false st d).1.applied = st.applied
    ∧ (syncStep false st d).1.hasVanquished = st.hasVanquished
    ∧ (syncStep false ((syncStep false st d).1) d).2 = some d := by
  have hnc : ¬ (st.applied = d
      ∧ (st.hasVanquished && st.applied == "vanquished") = (d == "vanquished")) :=
    fun h => happ h.1
  have h1 := syncStep_fire false st d s hpend hd hn hnc
  rw [if_neg (by simp)] at h1
  have hnc2 : ¬ ((syncStep false st d).1.applied = d
      ∧ ((syncStep false st d).1.hasVanquished
          && (syncStep false st d).1.applied == "vanquished") = (d == "vanquished")) := by
    rw [h1]
    exact fun h => happ h.1
  have h2 := syncStep_fire false (syncStep false st d).1 d ⟨d, min (s.n + 1) 5⟩
    (by rw [h1]) rfl (show (1 : Int) ≤ min (s.n + 1) 5 by omega) hnc2
  rw [if_neg (by simp)] at h2
  refine ⟨by rw [h1], by rw [h1], by omega, by rw [h1], by rw [h1], by rw [h2]⟩

/-- C9, witness: a member holding `member` whose pending state already
agrees once on `elder` gets the `elder` command, keeps its unchanged roles
on failure, and is retried on the following tick. -/
theorem failed_apply_retries_next_tick_witness :
    (syncStep false ⟨"member", false, some ⟨"elder", 1⟩⟩ "elder").2 = some "elder"
    ∧ (syncStep false ((syncStep false ⟨"member", false, some ⟨"elder", 1⟩⟩
        "elder").1) "elder").2 = some "elder" := by
  have h := failed_apply_retries_next_tick ⟨"member", false, some ⟨"elder", 1⟩⟩
    "elder" ⟨"elder", 1⟩ rfl rfl (le_refl (1 : Int)) (by decide)
  exact ⟨h.1, h.2.2.2.2.2⟩

/-! ### Lemmas about the snapshot history store -/

theorem lastN_length_le (n : Nat) (l : List α) : (lastN n l).length ≤ n := by
  simp only [lastN, List.length_drop]
  omega

theorem lastN_eq_of_le {n : Nat} {l : List α} (h : l.length ≤ n) : lastN n l = l := by
  simp only [lastN, Nat.sub_eq_zero_of_le h, List.drop_zero]

theorem lastN_sublist (n : Nat) (l : List α) : (lastN n l).Sublist l :=
  List.drop_sublist _ _

theorem lastN_append_lastN (n : Nat) (l r : List α) :
    lastN n (lastN n l ++ r) = lastN n (l ++ r) := by
  simp only [lastN, List.length_append, List.length_drop,
    List.drop_append_eq_append_drop, List.drop_drop]
  have h1 : l.length - n + (l.length - (l.length - n) + r.length - n)
      = l.length + r.length - n := by omega
  have h2 : l.length - (l.length - n) + r.length - n - (l.length - (l.length - n))
      = l.length + r.length - n - l.length := by omega
  rw [h1, h2]

/-- Appending entries with keys disjoint from the store keeps the store a
positional trim of the concatenation. -/
theorem foldl_appendSnapshotHistory (es : List HistoryEntry) :
    ∀ acc : List HistoryEntry, acc.length ≤ MAX_HISTORY →
      (∀ e ∈ es, ∀ x ∈ acc, x.key ≠ e.key) →
      (es.map HistoryEntry.key).Nodup →
      es.foldl appendSnapshotHistory acc = lastN MAX_HISTORY (acc ++ es) := by
  induction es with
  | nil =>
    intro acc hle _ _
    simpa using (lastN_eq_of_le (by simpa using hle)).symm
  | cons e rest ih =>
    intro acc hle hdisj hnd
    have hfilter : (acc.filter fun x => x.key != e.key) = acc := by
      rw [List.filter_eq_self]
      intro x hx
      simpa [bne_iff_ne] using hdisj e (by simp) x hx
    have hstep : appendSnapshotHistory acc e = lastN MAX_HISTORY (acc ++ [e]) := by
      simp [appendSnapshotHistory, writeSnapshotHistory, hfilter]
    have hnd' : (rest.map HistoryEntry.key).Nodup ∧
        e.key ∉ rest.map HistoryEntry.key := by
      simp only [List.map_cons, List.nodup_cons] at hnd
      exact ⟨hnd.2, hnd.1⟩
    rw [List.foldl_cons, hstep, ih _ (lastN_length_le _ _) ?_ hnd'.1]
    · rw [lastN_append_lastN]
      simp
    · intro e' he' x hx
      have hx' : x ∈ acc ++ [e] := (lastN_sublist _ _).subset hx
      rcases List.mem_append.1 hx' with h | h
      · exact hdisj e' (List.mem_cons_of_mem _ he') x h
      · have hxe : x = e := by simpa using h
        subst hxe
        intro hk
        exact hnd'.2 (hk ▸ List.mem_map_of_mem HistoryEntry.key he')

/-- C7, counterexample: the trim is positional, not by end timestamp. On a
full store whose first (oldest-appended) entry carries the largest `endAt`,
one more append evicts exactly that largest-timestamp entry while keeping
50 entries with strictly smaller timestamps, so the retained entries are
not the most recent `MAX_HISTORY` by end timestamp. -/
theorem history_trim_positional_counterexample :
    histC7.length = 50
    ∧ mkHE 0 1000 ∈ histC7
    ∧ (appendSnapshotHistory histC7 (mkHE 50 50)).length = 50
    ∧ mkHE 0 1000 ∉ appendSnapshotHistory histC7 (mkHE 50 50)
    ∧ ∀ e ∈ appendSnapshotHistory histC7 (mkHE 50 50), e.endAt < 1000 := by
  decide

/-- C7 (amended): `appendSnapshotHistory` first removes any entry with the
incoming key and then trims to the 50 most recently appended entries
(insertion order, which coincides with end-timestamp order whenever entries
arrive in nondecreasing `endAt` order); consequently, appending 60
distinct-key entries to an empty store retains exactly the last 50 (the
oldest 10 appended are evicted) and the store never holds two entries with
the same key. -/
theorem history_append_bounded_dedup (es : List HistoryEntry)
    (hlen : es.length = 60) (hnd : (es.map HistoryEntry.key).Nodup) :
    es.foldl appendSnapshotHistory [] = es.drop 10
    ∧ (es.foldl appendSnapshotHistory []).length = 50
    ∧ ((es.foldl appendSnapshotHistory []).map HistoryEntry.key).Nodup := by
  have h := foldl_appendSnapshotHistory es [] (by simp [MAX_HISTORY]) (by simp) hnd
  have hdrop : lastN MAX_HISTORY ([] ++ es) = es.drop 10 := by
    simp [lastN, MAX_HISTORY, hlen]
  have heq : es.foldl appendSnapshotHistory [] = es.drop 10 := by rw [h, hdrop]
  refine ⟨heq, ?_, ?_⟩
  · rw [heq]
    simp [hlen]
  · rw [heq]
    exact ((List.drop_sublist 10 es).map HistoryEntry.key).nodup hnd

/-- C7, witness: the amended statement evaluated on sixty concrete
distinct-key entries. -/
theorem history_append_bounded_dedup_witness :
    hist60.foldl appendSnapshotHistory [] = hist60.drop 10
    ∧ (hist60.foldl appendSnapshotHistory []).length = 50 := by
  have h := history_append_bounded_dedup hist60 (by decide) (by decide)
  exact ⟨h.1, h.2.1⟩

/-! ### Day-index inference claims -/

/-- C3, counterexample: at the reset boundary the next-day value
`cumulative / 4 + 1` is still clamped to the valid range `1..5`; with
cumulative `20` and a zero today-counter every stated condition holds
(positive exact multiple of 4, today observed and zero), the next-day value
is `6`, and the code infers no index at all rather than `6`. -/
theorem reset_boundary_unclamped_counterexample :
    isResetBoundary [⟨some 20, some 0, none, none⟩] = true
    ∧ maxDecksUsed [⟨some 20, some 0, none, none⟩] / 4 + 1 = 6
    ∧ inferWarDayIndex ⟨some "colosseum", none, none, none, none⟩
        [⟨some 20, some 0, none, none⟩] = none := by
  decide

/-- C3 (amended): under the colosseum fallback, when a today-counter is
observed and zero everywhere and the maximum cumulative counter is a
positive exact multiple of 4, the inferred day index is
`cumulative / 4 + 1`, provided that value lies in the valid range `1..5`
(otherwise no index is inferred); in particular cumulative `8` with zero
today-counters infers day `3`, not `2`. -/
theorem reset_boundary_next_day_inference (p : Payload) (parts : List Participant)
    (hpt : p.periodType.map normPT = some "colosseum")
    (hrb : isResetBoundary parts = true)
    (hle : maxDecksUsed parts / 4 + 1 ≤ 5) :
    inferWarDayIndex p parts = some ((maxDecksUsed parts / 4 + 1 : Nat) : Int) := by
  simp only [inferWarDayIndex, hpt, hrb, if_true, if_pos rfl, clampWarDayIndex]
  rw [if_neg]
  push_cast
  omega

/-- C3, witness: cumulative `8` with a zero today-counter infers day `3`. -/
theorem reset_boundary_next_day_inference_witness :
    inferWarDayIndex ⟨some "colosseum", none, none, none, none⟩
      [⟨some 8, some 0, none, none⟩] = some 3 := by
  have h := reset_boundary_next_day_inference
    ⟨some "colosseum", none, none, none, none⟩ [⟨some 8, some 0, none, none⟩]
    (by decide) (by decide) (by decide)
  simpa using h

/-- C4, counterexample: the round-up rule does not hold at the reset
boundary. With cumulative counters maxing at `8` and a present, zero
today-counter, the ceiling rule gives `ceil(8/4) = 2` but the code infers
day `3`. -/
theorem ceiling_rule_counterexample :
    (maxDecksUsed [⟨some 8, some 0, none, none⟩] + 3) / 4 = 2
    ∧ inferWarDayIndex ⟨some "colosseum", none, none, none, none⟩
        [⟨some 8, some 0, none, none⟩] = some 3
    ∧ inferWarDayIndex ⟨some "colosseum", none, none, none, none⟩
        [⟨some 8, some 0, none, none⟩] ≠ some 2 := by
  decide

/-- C4 (amended): under the colosseum fallback and away from the reset
boundary, the inferred day index is the ceiling of the maximum cumulative
counter (at least 1) over the per-day allotment 4, clamped to `1..5`: the
chosen value `c` is characterized by `4*(c-1) < max cumulative 1 ≤ 4*c`; in
particular counters `[4, 8, 8, 8]` yield day `2`. -/
theorem colosseum_ceiling_inference (p : Payload) (parts : List Participant)
    (hpt : p.periodType.map normPT = some "colosseum")
    (hrb : isResetBoundary parts = false) :
    ∃ c : Nat,
      inferWarDayIndex p parts = clampWarDayIndex (some (c : Int))
      ∧ 4 * (c - 1) < max (maxDecksUsed parts) 1
      ∧ max (maxDecksUsed parts) 1 ≤ 4 * c := by
  refine ⟨max 1 (((if maxDecksUsed parts = 0 then 1 else maxDecksUsed parts) + 3) / 4),
    ?_, ?_, ?_⟩
  · simp only [inferWarDayIndex, hpt, hrb, if_pos rfl, Bool.false_eq_true, if_false,
      if_true]
  · by_cases h : maxDecksUsed parts = 0 <;> simp only [h, if_true, if_false] <;> omega
  · by_cases h : maxDecksUsed parts = 0 <;> simp only [h, if_true, if_false] <;> omega

/-- C4, witness: cumulative counters `[4, 8, 8, 8]` with no today-counters
yield an inferred index characterized as the ceiling of `8 / 4`. -/
theorem colosseum_ceiling_inference_witness :
    ∃ c : Nat,
      inferWarDayIndex ⟨some "colosseum", none, none, none, none⟩
        [⟨some 4, none, none, none⟩, ⟨some 8, none, none, none⟩,
         ⟨some 8, none, none, none⟩, ⟨some 8, none, none, none⟩]
        = clampWarDayIndex (some (c : Int))
      ∧ 4 * (c - 1) < max (maxDecksUsed
          [⟨some 4, none, none, none⟩, ⟨some 8, none, none, none⟩,
           ⟨some 8, none, none, none⟩, ⟨some 8, none, none, none⟩]) 1
      ∧ max (maxDecksUsed
          [⟨some 4, none, none, none⟩, ⟨some 8, none, none, none⟩,
           ⟨some 8, none, none, none⟩, ⟨some 8, none, none, none⟩]) 1 ≤ 4 * c :=
  colosseum_ceiling_inference _ _ (by decide) (by decide)

/-! ### Rollover exactly-once -/

/-- C1, counterexample: the unqualified claim fails when the `A` period is
not recognized as a regular war battle day. Starting from a fresh store,
five ticks whose derived keys form `[A, A, A, B, B]` with
`A = training:na:na` and `B = warday:na:1` post no closed-period snapshot
at all — `postWarDaySnapshotFromCaptured` returns at its
`isRegularWarBattleDay` guard before posting — rather than exactly one
for `A`. -/
theorem rollover_training_counterexample :
    (runTicks freshDb
      [⟨⟨some "training", none, none, none, none⟩, [], 1⟩,
       ⟨⟨some "training", none, none, none, none⟩, [], 2⟩,
       ⟨⟨some "training", none, none, none, none⟩, [], 3⟩,
       ⟨⟨some "warday", none, none, some 1, none⟩, [], 4⟩,
       ⟨⟨some "warday", none, none, some 1, none⟩, [], 5⟩]).2 = []
    ∧ currentPeriodKey ⟨some "training", none, none, none, none⟩ []
        = "training:na:na"
    ∧ currentPeriodKey ⟨some "warday", none, none, some 1, none⟩ []
        = "warday:na:1"
    ∧ ("training:na:na" : String) ≠ "warday:na:1"
    ∧ isRegularWarBattleDay ⟨some "training", none, none, none, none⟩ = false := by
  decide

/-- C1 (amended): starting from a fresh store, over any five poll ticks
whose derived period keys form `[A, A, A, B, B]` with `A ≠ B`, provided the
frozen `A` capture is recognized as a regular war battle day (and its key
is not a legacy `:na` key, with participant tags already normalized), the
tracker posts exactly one closed-period snapshot: the one for `A`, carrying
the capture persisted on the last `A` tick (its timestamp, inferred day,
period type and participants), and posts nothing for `B` over those ticks
nor over any further ticks whose key still derives to `B`. Without the
battle-day proviso nothing is posted, as the counterexample shows. -/
theorem rollover_exactly_once (p1 p2 p3 p4 p5 : Payload)
    (l1 l2 l3 l4 l5 : List (String × Participant))
    (t1 t2 t3 t4 t5 : Int) (kA kB : String)
    (hk1 : currentPeriodKey p1 (l1.map Prod.snd) = kA)
    (hk2 : currentPeriodKey p2 (l2.map Prod.snd) = kA)
    (hk3 : currentPeriodKey p3 (l3.map Prod.snd) = kA)
    (hk4 : currentPeriodKey p4 (l4.map Prod.snd) = kB)
    (hk5 : currentPeriodKey p5 (l5.map Prod.snd) = kB)
    (hAB : kA ≠ kB) (hAne : kA ≠ "")
    (hmigA : isKeyMigrationOnly kA (capOf p3 l3 t3) p4 (l4.map Prod.snd) = false)
    (hreg : isRegularWarBattleDay p3 = true)
    (hnorm : ∀ ts ∈ l3, normalizeTagUpper ts.1 = some ts.1)
    (extra : List TickInput)
    (hextra : ∀ i ∈ extra, currentPeriodKey i.payload (i.parts.map Prod.snd) = kB) :
    (runTicks freshDb
      ([⟨p1, l1, t1⟩, ⟨p2, l2, t2⟩, ⟨p3, l3, t3⟩, ⟨p4, l4, t4⟩, ⟨p5, l5, t5⟩]
        ++ extra)).2 =
      [TrackOp.postSnapshot ("warDay:" ++ kA) t3
        (inferWarDayIndex p3 (l3.map Prod.snd)) p3.periodType l3] := by
  have hser : serializeParticipants l3 = l3 :=
    serializeParticipants_of_normalized l3 hnorm
  show (runTicks freshDb (⟨p1, l1, t1⟩ :: ⟨p2, l2, t2⟩ :: ⟨p3, l3, t3⟩ ::
    ⟨p4, l4, t4⟩ :: ⟨p5, l5, t5⟩ :: extra)).2 = _
  have e1 := tickOps_no_prev freshDb p1 l1 t1 (Or.inl rfl)
  rw [hk1] at e1
  rw [runTicks_cons_eq _ _ _ _ e1, applyOps_two_sets, postsOf_two_sets]
  have e2 := tickOps_same_key
    { freshDb with periodLastKey := some kA, periodLastCapture := some (capOf p1 l1 t1) }
    p2 l2 t2 kA rfl hk2.symm
  rw [hk2] at e2
  rw [runTicks_cons_eq _ _ _ _ e2, applyOps_two_sets, postsOf_two_sets]
  have e3 := tickOps_same_key
    { { freshDb with
          periodLastKey := some kA, periodLastCapture := some (capOf p1 l1 t1) } with
      periodLastKey := some kA, periodLastCapture := some (capOf p2 l2 t2) }
    p3 l3 t3 kA rfl hk3.symm
  rw [hk3] at e3
  rw [runTicks_cons_eq _ _ _ _ e3, applyOps_two_sets, postsOf_two_sets]
  have hne4 : kA ≠ "" ∧ kA ≠ currentPeriodKey p4 (l4.map Prod.snd)
      ∧ (capOf p3 l3 t3).periodKey ≠ "" := by
    refine ⟨hAne, ?_, ?_⟩
    · rw [hk4]
      exact hAB
    · show currentPeriodKey p3 (l3.map Prod.snd) ≠ ""
      rw [hk3]
      exact hAne
  have e4 := tickOps_posting
    { { { freshDb with
            periodLastKey := some kA, periodLastCapture := some (capOf p1 l1 t1) } with
        periodLastKey := some kA, periodLastCapture := some (capOf p2 l2 t2) } with
      periodLastKey := some kA, periodLastCapture := some (capOf p3 l3 t3) }
    p4 l4 t4 kA (capOf p3 l3 t3) rfl rfl hne4 hmigA
    (fun h => Option.noConfusion h) hreg
  have hpm : prevMapOf (capOf p3 l3 t3) = l3 := by
    show serializeParticipants (serializeParticipants l3) = l3
    rw [hser, hser]
  have hpp : prevPayloadOf (capOf p3 l3 t3) = p3 := rfl
  have hpk : (capOf p3 l3 t3).periodKey = kA := hk3
  have hct : (capOf p3 l3 t3).capturedAt = t3 := rfl
  rw [hpm, hpp, hpk, hct, hser, hk4] at e4
  rw [runTicks_cons_eq _ _ _ _ e4, applyOps_posting, postsOf_posting]
  have e5 := tickOps_same_key
    { { { { freshDb with
              periodLastKey := some kA,
              periodLastCapture := some (capOf p1 l1 t1) } with
          periodLastKey := some kA, periodLastCapture := some (capOf p2 l2 t2) } with
        periodLastKey := some kA, periodLastCapture := some (capOf p3 l3 t3) } with
      periodLastKey := some kB,
      periodLastCapture := some (capOf p4 l4 t4),
      snapshotLastKey := some ("warDay:" ++ kA),
      lastSnapshot := some l3,
      history := appendSnapshotHistory
        ({ { { freshDb with
                 periodLastKey := some kA,
                 periodLastCapture := some (capOf p1 l1 t1) } with
             periodLastKey := some kA,
             periodLastCapture := some (capOf p2 l2 t2) } with
           periodLastKey := some kA,
           periodLastCapture := some (capOf p3 l3 t3) } : Db).history
        ⟨"warDay:" ++ kA, t3, t4, p3.periodType,
         inferWarDayIndex p3 (l3.map Prod.snd), l3⟩ }
    p5 l5 t5 kB rfl hk5.symm
  rw [hk5] at e5
  rw [runTicks_cons_eq _ _ _ _ e5, applyOps_two_sets, postsOf_two_sets]
  simp only [List.nil_append, List.append_nil, List.singleton_append,
    List.cons_append, List.append_right_eq_self, List.cons.injEq, true_and]
  exact runTicks_same_key kB extra _ rfl hextra

/-- C1, witness: a concrete `[A, A, A, B, B]` run posts exactly the last `A`
capture. -/
theorem rollover_exactly_once_witness :
    (runTicks freshDb
      ([⟨⟨some "warday", none, some 3, some 2, none⟩,
          [("#P1", ⟨some 2, some 2, some 50, none⟩)], 1⟩,
        ⟨⟨some "warday", none, some 3, some 2, none⟩,
          [("#P1", ⟨some 3, some 3, some 80, none⟩)], 2⟩,
        ⟨⟨some "warday", none, some 3, some 2, none⟩,
          [("#P1", ⟨some 4, some 4, some 100, none⟩)], 3⟩,
        ⟨⟨some "warday", none, some 3, some 3, none⟩,
          [("#P1", ⟨some 4, some 0, some 100, none⟩)], 4⟩,
        ⟨⟨some "warday", none, some 3, some 3, none⟩,
          [("#P1", ⟨some 5, some 1, some 120, none⟩)], 5⟩] ++ [])).2 =
      [TrackOp.postSnapshot "warDay:warday:3:2" 3
        (inferWarDayIndex ⟨some "warday", none, some 3, some 2, none⟩
          ([("#P1", (⟨some 4, some 4, some 100, none⟩ : Participant))].map Prod.snd))
        (some "warday") [("#P1", ⟨some 4, some 4, some 100, none⟩)]] :=
  rollover_exactly_once
    ⟨some "warday", none, some 3, some 2, none⟩
    ⟨some "warday", none, some 3, some 2, none⟩
    ⟨some "warday", none, some 3, some 2, none⟩
    ⟨some "warday", none, some 3, some 3, none⟩
    ⟨some "warday", none, some 3, some 3, none⟩
    [("#P1", ⟨some 2, some 2, some 50, none⟩)]
    [("#P1", ⟨some 3, some 3, some 80, none⟩)]
    [("#P1", ⟨some 4, some 4, some 100, none⟩)]
    [("#P1", ⟨some 4, some 0, some 100, none⟩)]
    [("#P1", ⟨some 5, some 1, some 120, none⟩)]
    1 2 3 4 5 "warday:3:2" "warday:3:3"
    (by decide) (by decide) (by decide) (by decide) (by decide)
    (by decide) (by decide) (by decide) (by decide) (by decide)
    [] (by intro i hi; cases hi)

end CRBot
